import Mathlib

/-
Verification development for the datakit-ebpf L7 tracing core.

The Go sources are shallowly embedded: byte buffers become `List Char`
(each code point standing for one byte), Go `uint64` values become `Nat`
with explicit reduction modulo `2 ^ 64` where overflow matters, Go maps
become association lists whose list order stands for one fixed iteration
order, and fallible or faulting code returns explicit result constructors.
-/

set_option maxRecDepth 10000

/-- Pair of 64-bit halves of a 128-bit trace identifier (pkg spanid.ID128). -/
structure ID128 where
  High : Nat
  Low : Nat
deriving DecidableEq, Repr

/-- Value of one hex digit, as Go encoding/hex fromHexChar: digits,
lowercase a-f, uppercase A-F; anything else is rejected. -/
def fromHexChar (c : Char) : Option Nat :=
  if '0' ≤ c ∧ c ≤ '9' then some (c.toNat - 48)
  else if 'a' ≤ c ∧ c ≤ 'f' then some (c.toNat - 87)
  else if 'A' ≤ c ∧ c ≤ 'F' then some (c.toNat - 55)
  else none

/-- Go encoding/hex Decode on a char list, keeping only the bytes decoded
before the first error: it consumes two hex digits per byte and stops at
the first invalid character or at a trailing odd character, returning the
bytes already produced (the Go callers discard the error value). -/
def hexDecodeLoop : List Char → List Nat
  | c1 :: c2 :: rest =>
    match fromHexChar c1, fromHexChar c2 with
    | some a, some b => (16 * a + b) :: hexDecodeLoop rest
    | _, _ => []
  | _ => []

/-- Go encoding/hex DecodeString with the error discarded. -/
def hexDecodeString (s : String) : List Nat := hexDecodeLoop s.data

/-- Go encoding/binary BigEndian.Uint64 as a fold over a byte list. -/
def beUint64 (bs : List Nat) : Nat := bs.foldl (fun a b => a * 256 + b) 0

/-- Embedding of tracing.HexTraceid2ID128: hex-decode the string and, when
exactly 16 bytes came out, take the first 8 as High and the last 8 as Low;
otherwise the zero ID. -/
def HexTraceid2ID128 (s : String) : ID128 :=
  let b := hexDecodeString s
  if b.length = 16 then { High := beUint64 (b.take 8), Low := beUint64 (b.drop 8) }
  else { High := 0, Low := 0 }

/-- Embedding of tracing.HexSpanid2ID64: hex-decode and require exactly
8 bytes, else 0. -/
def HexSpanid2ID64 (s : String) : Nat :=
  let b := hexDecodeString s
  if b.length = 8 then beUint64 b else 0

/-- Value of one decimal digit character, none for anything else. -/
def decDigit (c : Char) : Option Nat :=
  if '0' ≤ c ∧ c ≤ '9' then some (c.toNat - 48) else none

/-- Mathematical value of an all-decimal-digit char list continued from an
accumulator; none as soon as a non-digit appears. -/
def decValueLoop : List Char → Nat → Option Nat
  | [], acc => some acc
  | c :: rest, acc =>
    match decDigit c with
    | some d => decValueLoop rest (acc * 10 + d)
    | none => none

/-- Mathematical value of a nonempty all-decimal-digit char list. -/
def decValue : List Char → Option Nat
  | [] => none
  | cs => decValueLoop cs 0

/-- Outcome of Go strconv.ParseUint: a parsed value, a range error
(the Go call then yields MaxUint64), or a syntax error (yields 0). -/
inductive PURes
  | ok (v : Nat)
  | rangeE
  | synE
deriving DecidableEq, Repr

/-- Digit loop of Go strconv.ParseUint for base 10 and bitSize 64: a
non-digit is a syntax error; before consuming a digit, an accumulator at or
above cutoff 1844674407370955162 = MaxUint64/10+1, or a step past
MaxUint64, is a range error. -/
def parseUintLoop : List Char → Nat → PURes
  | [], n => .ok n
  | c :: rest, n =>
    match decDigit c with
    | none => .synE
    | some d =>
      if 1844674407370955162 ≤ n then .rangeE
      else if 18446744073709551615 < n * 10 + d then .rangeE
      else parseUintLoop rest (n * 10 + d)

/-- Go strconv.ParseUint(s, 10, 64) on a char list; the empty string is a
syntax error, and no sign prefix is permitted. -/
def goParseUint64 : List Char → PURes
  | [] => .synE
  | cs => parseUintLoop cs 0

/-- Value actually returned by Go ParseUint when the caller ignores the
error: the parsed value, MaxUint64 on a range error, 0 on a syntax error. -/
def puVal : PURes → Nat
  | .ok v => v
  | .rangeE => 18446744073709551615
  | .synE => 0

/-- Value returned by Go strconv.ParseInt(s, 10, 64) with the error
ignored: strip one optional sign, run ParseUint, then clamp to MaxInt64
or MinInt64 on overflow of the signed range; syntax errors give 0. -/
def goParseInt64Val (s : List Char) : Int :=
  let signAndRest : Bool × List Char :=
    match s with
    | '+' :: r => (false, r)
    | '-' :: r => (true, r)
    | r => (false, r)
  let neg := signAndRest.1
  match goParseUint64 signAndRest.2 with
  | .synE => 0
  | .rangeE => if neg then -(2 ^ 63) else 2 ^ 63 - 1
  | .ok un =>
    if ¬neg ∧ 2 ^ 63 ≤ un then 2 ^ 63 - 1
    else if neg ∧ 2 ^ 63 < un then -(2 ^ 63)
    else if neg then -(un : Int) else (un : Int)

/-- Go strings.HasPrefix(s, the dash) on a char list: nonempty and the
first character is the dash. -/
def startsWithDash : List Char → Bool
  | c :: _ => c == '-'
  | [] => false

/-- Embedding of tracing.DecTraceOrSpanid2ID64: a leading dash selects
signed ParseInt whose int64 result is reinterpreted as a uint64 bit
pattern, anything else selects ParseUint; both with the error discarded. -/
def DecTraceOrSpanid2ID64 (s : String) : Nat :=
  if startsWithDash s.data then ((goParseInt64Val s.data) % (2 ^ 64 : Int)).toNat
  else puVal (goParseUint64 s.data)

/-- Decimal digit characters of a natural number, most significant first,
as produced by Go strconv.FormatUint(i, 10). -/
def decDigitsOf (n : Nat) : List Char :=
  if _h : n < 10 then [Nat.digitChar n]
  else decDigitsOf (n / 10) ++ [Nat.digitChar (n % 10)]
decreasing_by exact Nat.div_lt_self (by omega) (by omega)

/-- Big-endian byte list of a 64-bit value, as Go binary.BigEndian.PutUint64. -/
def u64BEBytes (i : Nat) : List Nat :=
  [i / 2 ^ 56 % 256, i / 2 ^ 48 % 256, i / 2 ^ 40 % 256, i / 2 ^ 32 % 256,
   i / 2 ^ 24 % 256, i / 2 ^ 16 % 256, i / 2 ^ 8 % 256, i % 256]

/-- Two lowercase hex digit characters of one byte, as Go encoding/hex
EncodeToString produces per byte. -/
def hexEncodeByte (b : Nat) : List Char :=
  [Nat.digitChar (b / 16), Nat.digitChar (b % 16)]

/-- Embedding of tracing.FormatSpanID: base16 gives the 16 lowercase hex
digits of the big-endian 8-byte encoding, otherwise unsigned decimal. -/
def FormatSpanID (i : Nat) (base16 : Bool) : String :=
  if base16 then ⟨(u64BEBytes i).flatMap hexEncodeByte⟩
  else ⟨decDigitsOf i⟩

/-- Whitespace characters trimmed by Go strings.TrimSpace, restricted to
the Latin-1 range that a payload byte can carry. -/
def isGoSpace (c : Char) : Bool :=
  c = ' ' ∨ c = '\t' ∨ c = '\n' ∨ c = '\x0b' ∨ c = '\x0c' ∨ c = '\r' ∨
  c = '\x85' ∨ c = '\xa0'

/-- Go strings.TrimSpace on a char list. -/
def trimSpace (cs : List Char) : List Char :=
  ((cs.dropWhile isGoSpace).reverse.dropWhile isGoSpace).reverse

/-- Go strings.Split with a one-character separator: always returns at
least one (possibly empty) field. -/
def splitOnChar (sep : Char) : List Char → List (List Char)
  | [] => [[]]
  | c :: rest =>
    if c = sep then [] :: splitOnChar sep rest
    else
      match splitOnChar sep rest with
      | h :: t => (c :: h) :: t
      | [] => [[c]]

/-- Go strings.Split with the two-character CRLF separator, scanning left
to right without overlap. -/
def splitCRLF : List Char → List (List Char)
  | [] => [[]]
  | '\r' :: '\n' :: rest => [] :: splitCRLF rest
  | c :: rest =>
    match splitCRLF rest with
    | h :: t => (c :: h) :: t
    | [] => [[c]]

/-- Go strings.SplitN(v, one colon, 2) in the shape the header loop needs:
none when v holds no colon (the Go slice then has one field and the loop
breaks), otherwise the parts before and after the first colon. -/
def splitN2Colon : List Char → Option (List Char × List Char)
  | [] => none
  | c :: rest =>
    if c = ':' then some ([], rest)
    else
      match splitN2Colon rest with
      | some (a, b) => some (c :: a, b)
      | none => none

/-- Go bytes.Index for a nonempty pattern: index of the first occurrence. -/
def firstIdxOf (pat : List Char) : List Char → Option Nat
  | [] => none
  | c :: rest =>
    if pat.isPrefixOf (c :: rest) then some 0
    else (firstIdxOf pat rest).map (· + 1)

/-- Go bytes.LastIndex for a nonempty pattern: index of the last occurrence. -/
def lastIdxOf (pat : List Char) : List Char → Option Nat
  | [] => none
  | c :: rest =>
    match lastIdxOf pat rest with
    | some i => some (i + 1)
    | none => if pat.isPrefixOf (c :: rest) then some 0 else none

/-- Header accumulation loop of tracing.GetHTTPHeader: split lines on the
first colon, stop at the first line without one, keep the first value seen
for a name, trim whitespace around the value. -/
def collectHeaders : List (List Char) → List (String × String) → List (String × String)
  | [], acc => acc
  | v :: rest, acc =>
    match splitN2Colon v with
    | none => acc
    | some (k, val) =>
      let key : String := ⟨k⟩
      let acc' := if acc.any (fun kv => kv.1 == key) then acc
                  else acc ++ [(key, (⟨trimSpace val⟩ : String))]
      collectHeaders rest acc'

/-- Result of the header parser: either the Go return value (a map or nil)
or the out-of-bounds fault of indexing into the buffer. -/
inductive HTTPRes
  | oobFault
  | ret (m : Option (List (String × String)))
deriving DecidableEq, Repr

/-- Body of tracing.GetHTTPHeader after the first-byte probe: truncate at
the last CRLFCRLF, split off the request line at the first CRLF, require
three space-separated tokens, validate the request target, then collect
the header lines.  Every buffer access in this part of the Go code is
bounds-checked by a preceding guard, so the embedding is total. -/
def getHTTPHeaderBody (payload : List Char) : Option (List (String × String)) :=
  let p1 : Option (List Char) :=
    match lastIdxOf ['\r', '\n', '\r', '\n'] payload with
    | some i => if 0 < i then some (payload.take i) else none
    | none => some payload
  match p1 with
  | none => none
  | some payload1 =>
    match firstIdxOf ['\r', '\n'] payload1 with
    | none => none
    | some idx =>
      let ln := payload1.take idx
      let req := splitOnChar ' ' ln
      if req.length = 3 then
        let uriAndParam := splitOnChar '?' ((req.get? 1).getD [])
        let uri := uriAndParam.headD []
        let uriOK :=
          if 8 < uri.length ∧ uri.take 8 = "https://".data then
            (uri.drop 8).contains '/'
          else if 7 < uri.length ∧ uri.take 7 = "http://".data then
            (uri.drop 7).contains '/'
          else if 0 < uri.length ∧ uri.take 1 = ['/'] then true
          else false
        if uriOK then
          some (collectHeaders (splitCRLF (payload1.drop (idx + 2))) [])
        else none
      else none

/-- Embedding of tracing.GetHTTPHeader: the unguarded read of byte 0
faults on the empty buffer; a first byte 0x30 returns nil; otherwise the
bounds-checked body runs. -/
def GetHTTPHeader (payload : List Char) : HTTPRes :=
  match payload with
  | [] => .oobFault
  | c0 :: _ =>
    if c0 = '0' then .ret none
    else .ret (getHTTPHeaderBody payload)

/-- Lookup in the header map, Go map indexing specialized to the
association-list embedding: first binding of the exact key. -/
def lookupHdr (m : List (String × String)) (k : String) : Option String :=
  (m.find? (fun kv => kv.1 == k)).map (fun kv => kv.2)

/-- Modelled from the spec: tracing.SampledDataDog is referenced by
GetTraceInfo but its definition is not among the given sources; per the
spec the sampling-priority header is sampled exactly when its numeric
(signed decimal) value is positive, and malformed values degrade to
not-sampled. -/
def SampledDataDog (s : String) : Bool :=
  match s.data with
  | '-' :: _ => false
  | cs =>
    match decValue cs with
    | some v => 0 < v
    | none => false

/-- Modelled from the spec: tracing.SampledW3C is referenced by
GetTraceInfo but its definition is not among the given sources; per the
spec the low bit of the last hex nibble of the traceparent flags field
decides sampling, and malformed values degrade to not-sampled. -/
def SampledW3C (s : String) : Bool :=
  match s.data.getLast? with
  | some c =>
    match fromHexChar c with
    | some d => d % 2 = 1
    | none => false
  | none => false

/-- Embedding of tracing.GetTraceInfo: the DataDog headers are consulted
first under their exact lower-case names; otherwise a four-part
traceparent header is decoded; otherwise everything is zero. -/
def GetTraceInfo (headers : List (String × String)) : Bool × Bool × ID128 × Nat :=
  match lookupHdr headers "x-datadog-trace-id" with
  | some tid =>
    let parentID := match lookupHdr headers "x-datadog-parent-id" with
      | some psid => DecTraceOrSpanid2ID64 psid
      | none => 0
    let sampled := match lookupHdr headers "x-datadog-sampling-priority" with
      | some v => SampledDataDog v
      | none => false
    (sampled, false, { High := 0, Low := DecTraceOrSpanid2ID64 tid }, parentID)
  | none =>
    match lookupHdr headers "traceparent" with
    | some v =>
      let traceParent := splitOnChar '-' v.data
      if traceParent.length = 4 then
        (SampledW3C ⟨(traceParent.get? 3).getD []⟩, true,
         HexTraceid2ID128 ⟨(traceParent.get? 1).getD []⟩,
         HexSpanid2ID64 ⟨(traceParent.get? 2).getD []⟩)
      else (false, false, { High := 0, Low := 0 }, 0)
    | none => (false, false, { High := 0, Low := 0 }, 0)

/-- Per-PID record stored by the filter (tracing.ProcSvcInfo). -/
structure ProcSvcInfo where
  Name : String
  Service : String
  AllowTrace : Bool
deriving DecidableEq, Repr

/-- State of tracing.ProcessFilter.  Go maps become association lists; the
list order of a rule map stands for one fixed iteration order of the Go
map, and theorems quantifying over all states cover every such order.
The LRU is the groupcache list, most recently used first. -/
structure ProcessFilter where
  SvcAssignEnv : List String
  RuleEnv : List (String × Bool)
  RuleProcessName : List (String × Bool)
  RulePath : List (String × Bool)
  Pid2ProcInfo : List (Int × ProcSvcInfo)
  PidDeleted : List (Int × ProcSvcInfo)
  AnyProcess : Bool
  Disable : Bool
deriving DecidableEq, Repr

/-- Association-list lookup standing for Go map indexing. -/
def alookup {α β : Type} [BEq α] (m : List (α × β)) (k : α) : Option β :=
  (m.find? (fun kv => kv.1 == k)).map (fun kv => kv.2)

/-- Go map assignment m[k] = v: replace the binding when the key exists,
otherwise add it. -/
def mapSet {α β : Type} [BEq α] (m : List (α × β)) (k : α) (v : β) : List (α × β) :=
  if m.any (fun kv => kv.1 == k) then
    m.map (fun kv => if kv.1 == k then (k, v) else kv)
  else m ++ [(k, v)]

/-- Go delete(m, k). -/
def mapRemove {α β : Type} [BEq α] (m : List (α × β)) (k : α) : List (α × β) :=
  m.filter (fun kv => !(kv.1 == k))

/-- groupcache lru.Cache.Add with the given capacity: an existing key is
moved to the front with its value replaced; a new key is pushed to the
front and, past capacity, the oldest (last) entry is evicted. -/
def lruAdd (cap : Nat) (l : List (Int × ProcSvcInfo)) (k : Int) (v : ProcSvcInfo) :
    List (Int × ProcSvcInfo) :=
  if l.any (fun kv => kv.1 == k) then (k, v) :: l.filter (fun kv => !(kv.1 == k))
  else if cap < l.length + 1 then ((k, v) :: l).dropLast
  else (k, v) :: l

/-- groupcache lru.Cache.Get: on a hit the entry moves to the front. -/
def lruGet (l : List (Int × ProcSvcInfo)) (k : Int) :
    Option ProcSvcInfo × List (Int × ProcSvcInfo) :=
  match l.find? (fun kv => kv.1 == k) with
  | some kv => (some kv.2, kv :: l.filter (fun e => !(e.1 == k)))
  | none => (none, l)

/-- Embedding of tracing.NewProcessFilter: empty path rules, empty live
map, fresh LRU of capacity 1024. -/
def NewProcessFilter (svcAssignEnv : List String)
    (ruleEnv ruleProcessName : List (String × Bool))
    (anyProcess disable : Bool) : ProcessFilter :=
  { SvcAssignEnv := svcAssignEnv
    RuleEnv := ruleEnv
    RuleProcessName := ruleProcessName
    RulePath := []
    Pid2ProcInfo := []
    PidDeleted := []
    AnyProcess := anyProcess
    Disable := disable }

/-- Presence of a key in the process environment map. -/
def envHas (env : List (String × String)) (k : String) : Bool :=
  env.any (fun e => e.1 == k)

/-- Embedding of tracing.ProcessFilter.Filter.  The admit pass takes the
polarity of the first env rule whose key is present (the inner break),
or a process-name rule of polarity true, or a present path rule, or the
any-process flag; the deny pass then forces false on a process-name rule
of polarity false or any present env rule of polarity false; the disable
flag forces false last.  The service name defaults to the process name and
is overridden by the first SvcAssignEnv key present in the environment.
The result is recorded in the live map under the PID. -/
def ProcessFilter.Filter (p : ProcessFilter) (pid : Int) (name path : String)
    (env : List (String × String)) : Bool × ProcessFilter :=
  let envPass :=
    match p.RuleEnv.find? (fun kv => envHas env kv.1) with
    | some kv => kv.2
    | none => false
  let admitPass :=
    envPass
    || (match alookup p.RuleProcessName name with
        | some true => true
        | _ => false)
    || (alookup p.RulePath path).isSome
    || p.AnyProcess
  let afterNameDeny :=
    if alookup p.RuleProcessName name = some false then false else admitPass
  let afterEnvDeny :=
    if p.RuleEnv.any (fun kv => kv.2 == false && envHas env kv.1) then false
    else afterNameDeny
  let filtered := if p.Disable then false else afterEnvDeny
  let service :=
    if 0 < env.length ∧ 0 < p.SvcAssignEnv.length then
      match p.SvcAssignEnv.findSome? (fun k => alookup env k) with
      | some v => v
      | none => name
    else name
  let pinfo : ProcSvcInfo := { Name := name, Service := service, AllowTrace := filtered }
  (filtered, { p with Pid2ProcInfo := mapSet p.Pid2ProcInfo pid pinfo })

/-- Embedding of tracing.ProcessFilter.Delete: when the PID is live, remove
it from the live map and add the record to the deleted-PID LRU. -/
def ProcessFilter.Delete (p : ProcessFilter) (pid : Int) : ProcessFilter :=
  match alookup p.Pid2ProcInfo pid with
  | some v =>
    { p with Pid2ProcInfo := mapRemove p.Pid2ProcInfo pid
             PidDeleted := lruAdd 1024 p.PidDeleted pid v }
  | none => p

/-- Embedding of tracing.ProcessFilter.GetProcInfo: probe the live map
first (under its emptiness guard), then the LRU, whose hit reorders it. -/
def ProcessFilter.GetProcInfo (p : ProcessFilter) (pid : Int) :
    Option ProcSvcInfo × ProcessFilter :=
  match (if 0 < p.Pid2ProcInfo.length then alookup p.Pid2ProcInfo pid else none) with
  | some v => (some v, p)
  | none =>
    if 0 < p.PidDeleted.length then
      let r := lruGet p.PidDeleted pid
      (r.1, { p with PidDeleted := r.2 })
    else (none, p)

/-- One call against the shared filter. -/
inductive FilterOp
  | fop (pid : Int) (name path : String) (env : List (String × String))
  | dop (pid : Int)
  | gop (pid : Int)

/-- Sequential execution of filter calls, the serialization the
readers-writer lock enforces. -/
def runOps (p : ProcessFilter) : List FilterOp → ProcessFilter
  | [] => p
  | .fop pid name path env :: rest => runOps (p.Filter pid name path env).2 rest
  | .dop pid :: rest => runOps (p.Delete pid) rest
  | .gop pid :: rest => runOps (p.GetProcInfo pid).2 rest

/-- Presence of a PID in an association-list container. -/
def hasPid (m : List (Int × ProcSvcInfo)) (pid : Int) : Bool :=
  m.any (fun kv => kv.1 == pid)

/-- Embedding of l4log.genID128 over an abstract ULID generator type U:
the package variable holds an optional generator; a nil generator yields
no ID, otherwise the generator produces a result and its next internal
state (the pointer itself never changes). -/
def genID128 {U : Type} (idOf : U → (Option ID128 × Bool) × U) :
    Option U → (Option ID128 × Bool) × Option U
  | none => ((none, false), none)
  | some u => ((idOf u).1, some (idOf u).2)

/-- Embedding of l4log.initULID: the package variable is assigned the
result of spanid.NewULID, which is nil exactly when construction failed. -/
def initULID {U : Type} (newULIDResult : Option U) : Option U := newULIDResult

/-- Results of n successive genID128 calls threading the package state. -/
def genCalls {U : Type} (idOf : U → (Option ID128 × Bool) × U) :
    Nat → Option U → List (Option ID128 × Bool)
  | 0, _ => []
  | n + 1, s =>
    (genID128 idOf s).1 :: genCalls idOf n (genID128 idOf s).2

/-- Go slice of bytes with its capacity kept apart from its elements, so
that truncation to length 0 is observable as capacity-preserving. -/
structure GoSlice where
  cap : Nat
  elems : List Nat
deriving DecidableEq, Repr

/-- Modelled from the spec: comm.ConnectionInfo is not among the given
sources; per the spec it is the fixed-layout connection metadata
(source/destination address and port, PID, netns, metadata bitfield,
task name).  Only its zero value matters to the buffer-reset claim. -/
structure ConnectionInfo where
  saddr : List Nat
  daddr : List Nat
  sport : Nat
  dport : Nat
  pid : Nat
  netns : Nat
  meta : Nat
  taskName : List Nat
deriving DecidableEq, Repr

/-- Zero value of ConnectionInfo, as the Go composite literal produces. -/
def ConnectionInfo.zero : ConnectionInfo :=
  { saddr := [0, 0, 0, 0], daddr := [0, 0, 0, 0], sport := 0, dport := 0,
    pid := 0, netns := 0, meta := 0, taskName := List.replicate 16 0 }

/-- Modelled from the spec: comm.ConnUniID is not among the given sources;
it is the per-connection unique identifier.  Only its zero value matters
to the buffer-reset claim, so it is kept abstract as a type parameter in
NetwrkData and putNetwrkData below. -/
structure NetwrkData (CU : Type) where
  Conn : ConnectionInfo
  ConnUniID : CU
  ActSize : Nat
  TCPSeq : Nat
  Thread : Nat × Nat
  TS : Nat
  Fn : Nat
  TSTail : Nat
  Index : Nat
  Payload : GoSlice

/-- Embedding of l7flow.putNetwrkData: nil is returned unchanged; otherwise
every metadata field is zeroed, the payload is truncated to length 0
keeping its capacity, and the buffer is put back on the pool free list. -/
def putNetwrkData {CU : Type} (zeroUni : CU) (data : Option (NetwrkData CU))
    (pool : List (NetwrkData CU)) : List (NetwrkData CU) :=
  match data with
  | none => pool
  | some d =>
    { Conn := ConnectionInfo.zero
      ConnUniID := zeroUni
      ActSize := 0
      TCPSeq := 0
      Thread := (0, 0)
      TS := 0
      Fn := 0
      TSTail := 0
      Index := 0
      Payload := { cap := d.Payload.cap, elems := [] } } :: pool

/-- Spec-side predicate: the character is a hex digit (either case). -/
def isHexDigit (c : Char) : Bool := (fromHexChar c).isSome

/-- Spec-side predicate: exactly 32 hex digits. -/
def isHex32 (s : String) : Bool :=
  s.data.length == 32 && s.data.all isHexDigit

/-- Spec-side big-endian value of a list of hex digit characters. -/
def hexValD (ds : List Char) : Nat :=
  ds.foldl (fun a c => a * 16 + (fromHexChar c).getD 0) 0

theorem decDigit_digitChar {d : Nat} (h : d < 10) :
    decDigit (Nat.digitChar d) = some d := by
  interval_cases d <;> decide

theorem fromHexChar_digitChar {d : Nat} (h : d < 16) :
    fromHexChar (Nat.digitChar d) = some d := by
  interval_cases d <;> decide

theorem digitChar_ne_dash {d : Nat} (h : d < 10) : Nat.digitChar d ≠ '-' := by
  interval_cases d <;> decide

theorem decValueLoop_append (A B : List Char) (acc : Nat) :
    decValueLoop (A ++ B) acc =
      match decValueLoop A acc with
      | some m => decValueLoop B m
      | none => none := by
  induction A generalizing acc with
  | nil => simp [decValueLoop]
  | cons c rest ih =>
    simp only [List.cons_append, decValueLoop]
    cases decDigit c with
    | none => simp
    | some d => simp [ih]

theorem decValueLoop_lower (cs : List Char) (acc v : Nat)
    (h : decValueLoop cs acc = some v) : acc * 10 ^ cs.length ≤ v := by
  induction cs generalizing acc with
  | nil =>
    simp [decValueLoop] at h
    simp [h]
  | cons c rest ih =>
    simp only [decValueLoop] at h
    cases hd : decDigit c with
    | none => rw [hd] at h; simp at h
    | some d =>
      rw [hd] at h
      have := ih (acc * 10 + d) h
      calc acc * 10 ^ (c :: rest).length = (acc * 10) * 10 ^ rest.length := by
            simp [List.length_cons, pow_succ]; ring
        _ ≤ (acc * 10 + d) * 10 ^ rest.length := by
            exact Nat.mul_le_mul_right _ (by omega)
        _ ≤ v := this

theorem parseUintLoop_of_decValueLoop (cs : List Char) (acc v : Nat)
    (hacc : acc ≤ 18446744073709551615) (h : decValueLoop cs acc = some v) :
    parseUintLoop cs acc =
      if v ≤ 18446744073709551615 then .ok v else .rangeE := by
  induction cs generalizing acc with
  | nil =>
    simp [decValueLoop] at h
    subst h
    simp [parseUintLoop, hacc]
  | cons c rest ih =>
    simp only [decValueLoop] at h
    cases hd : decDigit c with
    | none => rw [hd] at h; simp at h
    | some d =>
      rw [hd] at h
      have hlow := decValueLoop_lower rest (acc * 10 + d) v h
      have hpow : 1 ≤ 10 ^ rest.length := Nat.one_le_pow _ _ (by omega)
      have hstep : acc * 10 + d ≤ v := by
        have := Nat.le_mul_of_pos_right (acc * 10 + d) (by omega : 0 < 10 ^ rest.length)
        omega
      simp only [parseUintLoop, hd]
      by_cases hcut : 1844674407370955162 ≤ acc
      · rw [if_pos hcut, if_neg (by omega : ¬ v ≤ 18446744073709551615)]
      · rw [if_neg hcut]
        by_cases hover : 18446744073709551615 < acc * 10 + d
        · rw [if_pos hover, if_neg (by omega : ¬ v ≤ 18446744073709551615)]
        · rw [if_neg hover]
          exact ih (acc * 10 + d) (by omega) h

theorem decDigitsOf_value (n : Nat) : ∀ acc : Nat,
    decValueLoop (decDigitsOf n) acc =
      some (acc * 10 ^ (decDigitsOf n).length + n) := by
  induction n using Nat.strong_induction_on with
  | _ n ih =>
    intro acc
    rw [decDigitsOf]
    by_cases h : n < 10
    · simp only [dif_pos h]
      simp [decValueLoop, decDigit_digitChar h]
    · simp only [dif_neg h]
      rw [decValueLoop_append]
      rw [ih (n / 10) (Nat.div_lt_self (by omega) (by omega)) acc]
      simp only [decValueLoop, decDigit_digitChar (Nat.mod_lt n (by omega) : n % 10 < 10)]
      simp only [List.length_append, List.length_cons, List.length_nil, Nat.zero_add]
      congr 1
      have hsplit : (acc * 10 ^ (decDigitsOf (n / 10)).length + n / 10) * 10 + n % 10 =
          acc * (10 ^ (decDigitsOf (n / 10)).length * 10) + (n / 10 * 10 + n % 10) := by ring
      rw [hsplit, ← pow_succ]
      omega

theorem decDigitsOf_head (n : Nat) :
    ∃ d t, d < 10 ∧ decDigitsOf n = Nat.digitChar d :: t := by
  induction n using Nat.strong_induction_on with
  | _ n ih =>
    rw [decDigitsOf]
    by_cases h : n < 10
    · exact ⟨n, [], h, by simp [dif_pos h]⟩
    · obtain ⟨d, t, hd, ht⟩ := ih (n / 10) (Nat.div_lt_self (by omega) (by omega))
      exact ⟨d, t ++ [Nat.digitChar (n % 10)], hd, by simp [dif_neg h, ht]⟩

theorem listPairRec {P : List Char → Prop} (h0 : P []) (h1 : ∀ c, P [c])
    (h2 : ∀ c1 c2 rest, P rest → P (c1 :: c2 :: rest)) : ∀ cs, P cs := by
  have key : ∀ n cs, List.length cs ≤ n → P cs := by
    intro n
    induction n with
    | zero =>
      intro cs h
      cases cs with
      | nil => exact h0
      | cons c rest => simp at h
    | succ n ihn =>
      intro cs h
      cases cs with
      | nil => exact h0
      | cons c1 rest =>
        cases rest with
        | nil => exact h1 c1
        | cons c2 rest2 =>
          apply h2
          apply ihn
          simp only [List.length_cons] at h
          omega
  intro cs
  exact key cs.length cs le_rfl

theorem hexDecodeLoop_encode (bs : List Nat) (h : ∀ b ∈ bs, b < 256) :
    hexDecodeLoop (bs.flatMap hexEncodeByte) = bs := by
  induction bs with
  | nil => rfl
  | cons b rest ih =>
    have hb : b < 256 := h b (by simp)
    have h1 : b / 16 < 16 := by omega
    have h2 : b % 16 < 16 := by omega
    have hstep : (b :: rest).flatMap hexEncodeByte =
        Nat.digitChar (b / 16) :: Nat.digitChar (b % 16) :: rest.flatMap hexEncodeByte := by
      simp [hexEncodeByte]
    rw [hstep]
    simp only [hexDecodeLoop, fromHexChar_digitChar h1, fromHexChar_digitChar h2]
    rw [ih (fun x hx => h x (by simp [hx]))]
    congr 1
    omega

theorem beUint64_u64BEBytes {x : Nat} (h : x < 2 ^ 64) :
    beUint64 (u64BEBytes x) = x := by
  simp only [beUint64, u64BEBytes, List.foldl]
  omega

theorem hexDecodeLoop_append :
    ∀ xs : List Char, xs.all isHexDigit = true → xs.length % 2 = 0 →
      ∀ ys, hexDecodeLoop (xs ++ ys) = hexDecodeLoop xs ++ hexDecodeLoop ys := by
  apply listPairRec
  · intro _ _ ys
    simp [hexDecodeLoop]
  · intro c hall heven
    simp at heven
  · intro c1 c2 rest ih hall heven ys
    simp only [List.all_cons, Bool.and_eq_true] at hall
    obtain ⟨hc1, hc2, hrest⟩ := hall
    simp only [List.length_cons] at heven
    obtain ⟨a, ha⟩ := Option.isSome_iff_exists.mp hc1
    obtain ⟨b, hb⟩ := Option.isSome_iff_exists.mp hc2
    show hexDecodeLoop (c1 :: c2 :: (rest ++ ys)) = _
    simp only [hexDecodeLoop, ha, hb]
    rw [ih hrest (by omega) ys]
    simp

theorem hexDecodeLoop_allHex_length :
    ∀ cs : List Char, cs.all isHexDigit = true → cs.length % 2 = 0 →
      (hexDecodeLoop cs).length = cs.length / 2 := by
  apply listPairRec
  · intro _ _
    simp [hexDecodeLoop]
  · intro c hall heven
    simp at heven
  · intro c1 c2 rest ih hall heven
    simp only [List.all_cons, Bool.and_eq_true] at hall
    obtain ⟨hc1, hc2, hrest⟩ := hall
    simp only [List.length_cons] at heven
    obtain ⟨a, ha⟩ := Option.isSome_iff_exists.mp hc1
    obtain ⟨b, hb⟩ := Option.isSome_iff_exists.mp hc2
    simp only [hexDecodeLoop, ha, hb, List.length_cons]
    rw [ih hrest (by omega)]
    omega

theorem hexDecodeLoop_allHex_foldl :
    ∀ cs : List Char, cs.all isHexDigit = true → cs.length % 2 = 0 →
      ∀ acc, (hexDecodeLoop cs).foldl (fun a b => a * 256 + b) acc =
        cs.foldl (fun a c => a * 16 + (fromHexChar c).getD 0) acc := by
  apply listPairRec
  · intro _ _ acc
    simp [hexDecodeLoop]
  · intro c hall heven
    simp at heven
  · intro c1 c2 rest ih hall heven acc
    simp only [List.all_cons, Bool.and_eq_true] at hall
    obtain ⟨hc1, hc2, hrest⟩ := hall
    simp only [List.length_cons] at heven
    obtain ⟨a, ha⟩ := Option.isSome_iff_exists.mp hc1
    obtain ⟨b, hb⟩ := Option.isSome_iff_exists.mp hc2
    simp only [hexDecodeLoop, ha, hb, List.foldl_cons, Option.getD_some]
    rw [ih hrest (by omega)]
    congr 1
    ring

theorem hexDecodeLoop_length_le :
    ∀ cs : List Char, 2 * (hexDecodeLoop cs).length ≤ cs.length := by
  apply listPairRec
  · simp [hexDecodeLoop]
  · intro c
    simp [hexDecodeLoop]
  · intro c1 c2 rest ih
    simp only [hexDecodeLoop, List.length_cons]
    cases h1 : fromHexChar c1 with
    | none => simp
    | some a =>
      cases h2 : fromHexChar c2 with
      | none => simp
      | some b =>
        simp only [List.length_cons]
        omega

theorem hexDecodeLoop_take_allHex :
    ∀ cs : List Char, (cs.take (2 * (hexDecodeLoop cs).length)).all isHexDigit = true := by
  apply listPairRec
  · simp [hexDecodeLoop]
  · intro c
    simp [hexDecodeLoop]
  · intro c1 c2 rest ih
    simp only [hexDecodeLoop]
    cases h1 : fromHexChar c1 with
    | none => simp
    | some a =>
      cases h2 : fromHexChar c2 with
      | none => simp
      | some b =>
        simp only [List.length_cons, Nat.mul_succ, List.take_succ_cons]
        simp only [List.all_cons, Bool.and_eq_true]
        refine ⟨?_, ?_, ?_⟩
        · simp [isHexDigit, h1]
        · simp [isHexDigit, h2]
        · exact ih

theorem alookup_filter_out {α β : Type} [BEq α] [LawfulBEq α]
    (m : List (α × β)) (k : α) :
    alookup (m.filter (fun kv => !(kv.1 == k))) k = none := by
  induction m with
  | nil => rfl
  | cons a t ih =>
    by_cases ha : a.1 == k
    · simp only [List.filter_cons, ha]
      simpa using ih
    · simp only [List.filter_cons]
      rw [if_pos (by simp [ha])]
      simp only [alookup, List.find?_cons, ha]
      exact ih

theorem alookup_mapSet {α β : Type} [BEq α] [LawfulBEq α]
    (m : List (α × β)) (k : α) (v : β) :
    alookup (mapSet m k v) k = some v := by
  unfold mapSet
  by_cases hm : m.any (fun kv => kv.1 == k) = true
  · rw [if_pos hm]
    induction m with
    | nil => simp at hm
    | cons a t ih =>
      by_cases ha : a.1 == k
      · simp [alookup, List.find?_cons, ha]
      · simp only [List.any_cons, Bool.or_eq_true] at hm
        have hm' : t.any (fun kv => kv.1 == k) = true := by
          rcases hm with h | h
          · exact absurd h ha
          · exact h
        simp only [List.map_cons]
        rw [if_neg (by simpa using ha)]
        simpa [alookup, List.find?_cons, ha] using ih hm'
  · rw [if_neg hm]
    simp only [Bool.not_eq_true, List.any_eq_false] at hm
    induction m with
    | nil => simp [alookup, List.find?]
    | cons a t ih =>
      have ha : (a.1 == k) = false := by
        have := hm a (by simp)
        simpa using this
      simp only [List.cons_append]
      simpa [alookup, List.find?_cons, ha] using
        ih (fun x hx => hm x (by simp [hx]))

theorem lookupHdr_filter_ne (m : List (String × String)) (k s : String)
    (hks : k ≠ s) :
    lookupHdr (m.filter (fun kv => !(kv.1 == s))) k = lookupHdr m k := by
  induction m with
  | nil => rfl
  | cons a t ih =>
    by_cases has : a.1 = s
    · have hak : (a.1 == k) = false := by
        simp [has]
        exact fun h => hks h.symm
      simp only [List.filter_cons]
      rw [if_neg (by simp [has])]
      rw [ih]
      simp [lookupHdr, List.find?_cons, hak]
    · simp only [List.filter_cons]
      rw [if_pos (by simpa using has)]
      by_cases hak : a.1 == k
      · simp [lookupHdr, List.find?_cons, hak]
      · simpa [lookupHdr, List.find?_cons, hak] using ih

theorem hasPid_lruAdd (l : List (Int × ProcSvcInfo)) (k : Int) (v : ProcSvcInfo) :
    hasPid (lruAdd 1024 l k v) k = true := by
  unfold lruAdd hasPid
  by_cases hm : l.any (fun kv => kv.1 == k) = true
  · rw [if_pos hm]
    simp
  · rw [if_neg hm]
    by_cases hlen : 1024 < l.length + 1
    · rw [if_pos hlen]
      match l with
      | [] => simp at hlen
      | a :: t =>
        have hd : ((k, v) :: a :: t).dropLast = (k, v) :: (a :: t).dropLast := rfl
        rw [hd]
        simp
    · rw [if_neg hlen]
      simp

/-- C1 (counterexample): running Filter, Delete, then Filter again on the
same PID leaves that PID present in the live map and in the deleted-PID LRU
at the same time, refuting the at-most-one-container invariant: Filter
re-inserts a previously deleted PID into the live map without removing the
stale LRU entry. -/
theorem c1_counterexample :
    hasPid (runOps (NewProcessFilter [] [] [] true false)
      [.fop 1 "curl" "/bin/curl" [], .dop 1, .fop 1 "curl" "/bin/curl" []]).Pid2ProcInfo 1 = true ∧
    hasPid (runOps (NewProcessFilter [] [] [] true false)
      [.fop 1 "curl" "/bin/curl" [], .dop 1, .fop 1 "curl" "/bin/curl" []]).PidDeleted 1 = true := by
  decide

/-- C1 (amended): Delete on a live PID does move it atomically, in one
step: afterwards the PID is gone from the live map and present in the
deleted-PID LRU.  The at-most-one-container part of the claim fails, as the
counterexample shows, because Filter never purges the LRU. -/
theorem c1_delete_atomic (p : ProcessFilter) (pid : Int)
    (h : (alookup p.Pid2ProcInfo pid).isSome = true) :
    alookup (p.Delete pid).Pid2ProcInfo pid = none ∧
    hasPid (p.Delete pid).PidDeleted pid = true := by
  obtain ⟨v, hv⟩ := Option.isSome_iff_exists.mp h
  unfold ProcessFilter.Delete
  rw [hv]
  exact ⟨alookup_filter_out _ _, hasPid_lruAdd _ _ _⟩

/-- C1 (witness): the amended Delete property at a concrete state holding
PID 7 live. -/
theorem c1_delete_atomic_witness :
    ((alookup ((NewProcessFilter [] [] [] true false).Filter 7 "curl" "/bin/curl" []).2.Pid2ProcInfo 7).isSome = true) ∧
    (alookup (((NewProcessFilter [] [] [] true false).Filter 7 "curl" "/bin/curl" []).2.Delete 7).Pid2ProcInfo 7 = none ∧
     hasPid (((NewProcessFilter [] [] [] true false).Filter 7 "curl" "/bin/curl" []).2.Delete 7).PidDeleted 7 = true) :=
  ⟨by decide, c1_delete_atomic _ 7 (by decide)⟩

/-- C2 (counterexample): GetHTTPHeader preserves the wire casing of header
names, and GetTraceInfo looks the DataDog keys up case-sensitively, so a
request carrying X-Datadog-Trace-Id in non-lower-case produces a header map
whose extraction differs from the all-lower-case spelling. -/
theorem c2_counterexample :
    GetHTTPHeader "GET / HTTP/1.1\r\nX-Datadog-Trace-Id: 5\r\n".data =
      .ret (some [("X-Datadog-Trace-Id", "5")]) ∧
    GetTraceInfo [("X-Datadog-Trace-Id", "5")] ≠
      GetTraceInfo [("x-datadog-trace-id", "5")] := by
  decide

/-- C2 (amended): trace-context header names are matched case-sensitively
against their exact lower-case spellings: a header map without the exact
keys x-datadog-trace-id and traceparent extracts to the all-zero result,
whatever other casings of those names it contains. -/
theorem c2_exact_lowercase_match (m : List (String × String))
    (h1 : lookupHdr m "x-datadog-trace-id" = none)
    (h2 : lookupHdr m "traceparent" = none) :
    GetTraceInfo m = (false, false, { High := 0, Low := 0 }, 0) := by
  unfold GetTraceInfo
  rw [h1, h2]

/-- C2 (witness): the amended case-sensitivity property on a concrete map
carrying only a non-lower-case spelling. -/
theorem c2_exact_lowercase_match_witness :
    (lookupHdr [("X-Datadog-Trace-Id", "5")] "x-datadog-trace-id" = none ∧
     lookupHdr [("X-Datadog-Trace-Id", "5")] "traceparent" = none) ∧
    GetTraceInfo [("X-Datadog-Trace-Id", "5")] =
      (false, false, { High := 0, Low := 0 }, 0) :=
  ⟨⟨by decide, by decide⟩, c2_exact_lowercase_match _ (by decide) (by decide)⟩

/-- C5 (counterexample): on the empty buffer GetHTTPHeader faults, because
the Go code reads payload byte 0 before any length guard; the claim that it
is total on every buffer, the empty one included, is false. -/
theorem c5_counterexample : GetHTTPHeader [] = HTTPRes.oobFault := rfl

/-- C5 (amended): on every nonempty buffer GetHTTPHeader is total and
in-bounds: the byte-0 probe is the only unguarded access in the Go code,
every later access sits behind a bounds guard, and the result is always a
header map or nil. -/
theorem c5_total_on_nonempty (payload : List Char) (h : payload ≠ []) :
    GetHTTPHeader payload ≠ HTTPRes.oobFault := by
  cases payload with
  | nil => exact absurd rfl h
  | cons c rest =>
    unfold GetHTTPHeader
    by_cases hc : c = '0' <;> simp [hc]

/-- C5 (witness): the amended totality property on a concrete one-byte
buffer. -/
theorem c5_total_on_nonempty_witness :
    (['G'] ≠ ([] : List Char)) ∧ GetHTTPHeader ['G'] ≠ HTTPRes.oobFault :=
  ⟨by decide, c5_total_on_nonempty ['G'] (by decide)⟩

/-- C9: when ULID construction failed and initULID left the generator nil,
every one of any number of subsequent genID128 calls returns no ID and
false, for every possible generator implementation. -/
theorem c9_inert_generator {U : Type} (idOf : U → (Option ID128 × Bool) × U)
    (n : Nat) :
    genCalls idOf n (initULID none) = List.replicate n (none, false) := by
  induction n with
  | zero => rfl
  | succ k ih =>
    simp only [genCalls, genID128, initULID, List.replicate] at ih ⊢
    rw [ih]

/-- C9 (witness): the inert-generator property at a concrete generator type
and call count. -/
theorem c9_inert_generator_witness :
    genCalls (fun u : Unit => ((none, false), u)) 5 (initULID none) =
      List.replicate 5 (none, false) :=
  c9_inert_generator _ 5

/-- C10: putNetwrkData on nil changes nothing; on a buffer it zeroes every
metadata field (Conn, ConnUniID, ActSize, TCPSeq, both Thread slots, TS,
Fn, TSTail, Index), truncates the payload to length 0 while keeping its
capacity, touches no other field, and pushes exactly that reset buffer onto
the pool. -/
theorem c10_buffer_reset {CU : Type} (zeroUni : CU) (x : NetwrkData CU)
    (pool : List (NetwrkData CU)) :
    putNetwrkData zeroUni none pool = pool ∧
    ∃ r, putNetwrkData zeroUni (some x) pool = r :: pool ∧
      r.Conn = ConnectionInfo.zero ∧ r.ConnUniID = zeroUni ∧ r.ActSize = 0 ∧
      r.TCPSeq = 0 ∧ r.Thread.1 = 0 ∧ r.Thread.2 = 0 ∧ r.TS = 0 ∧ r.Fn = 0 ∧
      r.TSTail = 0 ∧ r.Index = 0 ∧ r.Payload.elems = [] ∧
      r.Payload.cap = x.Payload.cap :=
  ⟨rfl, _, rfl, rfl, rfl, rfl, rfl, rfl, rfl, rfl, rfl, rfl, rfl, rfl, rfl⟩

/-- C10 (witness): the buffer-reset property at a concrete buffer. -/
theorem c10_buffer_reset_witness :
    putNetwrkData (0 : Nat) none ([] : List (NetwrkData Nat)) = [] ∧
    ∃ r, putNetwrkData (0 : Nat)
        (some { Conn := ConnectionInfo.zero, ConnUniID := 3, ActSize := 9,
                TCPSeq := 8, Thread := (7, 6), TS := 5, Fn := 4, TSTail := 3,
                Index := 2, Payload := { cap := 4096, elems := [1, 2, 3] } }) [] =
        r :: [] ∧
      r.Conn = ConnectionInfo.zero ∧ r.ConnUniID = 0 ∧ r.ActSize = 0 ∧
      r.TCPSeq = 0 ∧ r.Thread.1 = 0 ∧ r.Thread.2 = 0 ∧ r.TS = 0 ∧ r.Fn = 0 ∧
      r.TSTail = 0 ∧ r.Index = 0 ∧ r.Payload.elems = [] ∧
      r.Payload.cap = 4096 :=
  c10_buffer_reset 0 _ []

/-- C6: DataDog extraction takes precedence over W3C: whenever the header
map carries x-datadog-trace-id, the result is unchanged by erasing every
traceparent entry, the hex-encoding flag is false, and the concrete S1
scenario extracts sampled=true, hex=false, trace 1234567890, parent 42.
The sampling-priority predicate is modelled from the spec (its Go source
is not among the given files). -/
theorem c6_datadog_precedence (m : List (String × String))
    (h : (lookupHdr m "x-datadog-trace-id").isSome = true) :
    GetTraceInfo m = GetTraceInfo (m.filter (fun kv => !(kv.1 == "traceparent"))) ∧
    (GetTraceInfo m).2.1 = false ∧
    GetTraceInfo [("x-datadog-trace-id", "1234567890"), ("x-datadog-parent-id", "42"),
      ("x-datadog-sampling-priority", "1")] =
      (true, false, { High := 0, Low := 1234567890 }, 42) := by
  obtain ⟨tid, htid⟩ := Option.isSome_iff_exists.mp h
  refine ⟨?_, ?_, by decide⟩
  · unfold GetTraceInfo
    rw [lookupHdr_filter_ne m "x-datadog-trace-id" "traceparent" (by decide),
        lookupHdr_filter_ne m "x-datadog-parent-id" "traceparent" (by decide),
        lookupHdr_filter_ne m "x-datadog-sampling-priority" "traceparent" (by decide),
        htid]
  · unfold GetTraceInfo
    rw [htid]

/-- C6 (witness): precedence at a concrete map carrying both a DataDog
trace id and a traceparent header. -/
theorem c6_datadog_precedence_witness :
    ((lookupHdr [("traceparent", "00-4bf92f3577b34da6a3ce929d0e0e4736-00f067aa0ba902b7-01"),
        ("x-datadog-trace-id", "7")] "x-datadog-trace-id").isSome = true) ∧
    (GetTraceInfo [("traceparent", "00-4bf92f3577b34da6a3ce929d0e0e4736-00f067aa0ba902b7-01"),
        ("x-datadog-trace-id", "7")] =
      GetTraceInfo ([("traceparent", "00-4bf92f3577b34da6a3ce929d0e0e4736-00f067aa0ba902b7-01"),
        ("x-datadog-trace-id", "7")].filter (fun kv => !(kv.1 == "traceparent"))) ∧
     (GetTraceInfo [("traceparent", "00-4bf92f3577b34da6a3ce929d0e0e4736-00f067aa0ba902b7-01"),
        ("x-datadog-trace-id", "7")]).2.1 = false ∧
     GetTraceInfo [("x-datadog-trace-id", "1234567890"), ("x-datadog-parent-id", "42"),
       ("x-datadog-sampling-priority", "1")] =
       (true, false, { High := 0, Low := 1234567890 }, 42)) :=
  ⟨by decide, c6_datadog_precedence _ (by decide)⟩

/-- C8: a process-name rule of polarity false forces both the returned
admission and the recorded AllowTrace to false, for every filter state
(hence every Go map iteration order), PID, path and environment; and the
concrete S5 scenario admits curl and denies nginx. -/
theorem c8_name_deny_forces_false (p : ProcessFilter) (pid : Int)
    (name path : String) (env : List (String × String))
    (h : alookup p.RuleProcessName name = some false) :
    (p.Filter pid name path env).1 = false ∧
    (∀ info, alookup (p.Filter pid name path env).2.Pid2ProcInfo pid = some info →
      info.AllowTrace = false) ∧
    ((NewProcessFilter [] [] [("curl", true), ("nginx", false)] false false).Filter
        1 "curl" "/usr/bin/curl" []).1 = true ∧
    ((NewProcessFilter [] [] [("curl", true), ("nginx", false)] false false).Filter
        2 "nginx" "/usr/sbin/nginx" []).1 = false := by
  refine ⟨?_, ?_, by decide, by decide⟩
  · simp only [ProcessFilter.Filter, h]
    simp
  · intro info hinfo
    simp only [ProcessFilter.Filter] at hinfo
    rw [alookup_mapSet] at hinfo
    injection hinfo with hinfo
    rw [← hinfo]
    simp only [h]
    simp

/-- C8 (witness): the deny property at a concrete filter state whose rule
map denies nginx. -/
theorem c8_name_deny_forces_false_witness :
    (alookup (NewProcessFilter [] [] [("nginx", false)] true false).RuleProcessName
      "nginx" = some false) ∧
    (((NewProcessFilter [] [] [("nginx", false)] true false).Filter 2 "nginx" "/s" []).1 = false ∧
     (∀ info, alookup ((NewProcessFilter [] [] [("nginx", false)] true false).Filter
         2 "nginx" "/s" []).2.Pid2ProcInfo 2 = some info → info.AllowTrace = false) ∧
     ((NewProcessFilter [] [] [("curl", true), ("nginx", false)] false false).Filter
        1 "curl" "/usr/bin/curl" []).1 = true ∧
     ((NewProcessFilter [] [] [("curl", true), ("nginx", false)] false false).Filter
        2 "nginx" "/usr/sbin/nginx" []).1 = false) :=
  ⟨by decide, c8_name_deny_forces_false _ 2 "nginx" "/s" [] (by decide)⟩

/-- C3 (counterexample): the all-zero string of exactly 32 hex digits
yields the zero ID, and a 33-hex-digit string yields a non-zero ID because
Go's hex decoding returns the 16 bytes it decoded before the length error;
both directions of the claimed equivalence fail. -/
theorem c3_counterexample :
    (isHex32 "00000000000000000000000000000000" = true ∧
     HexTraceid2ID128 "00000000000000000000000000000000" = { High := 0, Low := 0 }) ∧
    (isHex32 "000000000000000000000000000000012" = false ∧
     HexTraceid2ID128 "000000000000000000000000000000012" ≠ { High := 0, Low := 0 }) := by
  decide

/-- C3 (amended): a string of exactly 32 hex digits parses to its
big-endian 128-bit value, which is the zero ID precisely when all digits
are zero; any string shorter than 32 characters, or with a non-hex
character among its first 32, yields the zero ID; longer strings whose
first 32 characters are hex digits can still yield a non-zero ID, as the
counterexample shows. -/
theorem c3_hex_parse_behavior (s : String) :
    (isHex32 s = true →
      HexTraceid2ID128 s =
        { High := hexValD (s.data.take 16), Low := hexValD (s.data.drop 16) }) ∧
    (s.data.length < 32 → HexTraceid2ID128 s = { High := 0, Low := 0 }) ∧
    ((s.data.take 32).all isHexDigit = false →
      HexTraceid2ID128 s = { High := 0, Low := 0 }) := by
  refine ⟨?_, ?_, ?_⟩
  · intro h
    simp only [isHex32, Bool.and_eq_true, beq_iff_eq] at h
    obtain ⟨hlen, hall⟩ := h
    have hallA : (s.data.take 16).all isHexDigit = true := by
      rw [List.all_eq_true] at hall ⊢
      exact fun x hx => hall x (List.take_subset _ _ hx)
    have hallB : (s.data.drop 16).all isHexDigit = true := by
      rw [List.all_eq_true] at hall ⊢
      exact fun x hx => hall x (List.drop_subset _ _ hx)
    have hlenA : (s.data.take 16).length = 16 := by
      rw [List.length_take]
      omega
    have hlenB : (s.data.drop 16).length = 16 := by
      rw [List.length_drop]
      omega
    have hdec : hexDecodeLoop s.data =
        hexDecodeLoop (s.data.take 16) ++ hexDecodeLoop (s.data.drop 16) := by
      conv_lhs => rw [← List.take_append_drop 16 s.data]
      exact hexDecodeLoop_append _ hallA (by rw [hlenA]) _
    have hlA : (hexDecodeLoop (s.data.take 16)).length = 8 := by
      rw [hexDecodeLoop_allHex_length _ hallA (by rw [hlenA]), hlenA]
    have hlB : (hexDecodeLoop (s.data.drop 16)).length = 8 := by
      rw [hexDecodeLoop_allHex_length _ hallB (by rw [hlenB]), hlenB]
    simp only [HexTraceid2ID128, hexDecodeString]
    rw [hdec]
    rw [if_pos (by rw [List.length_append, hlA, hlB])]
    have htake : (hexDecodeLoop (s.data.take 16) ++ hexDecodeLoop (s.data.drop 16)).take 8 =
        hexDecodeLoop (s.data.take 16) := List.take_left' hlA
    have hdrop : (hexDecodeLoop (s.data.take 16) ++ hexDecodeLoop (s.data.drop 16)).drop 8 =
        hexDecodeLoop (s.data.drop 16) := List.drop_left' hlA
    rw [htake, hdrop]
    have hHigh : beUint64 (hexDecodeLoop (s.data.take 16)) = hexValD (s.data.take 16) :=
      hexDecodeLoop_allHex_foldl _ hallA (by rw [hlenA]) 0
    have hLow : beUint64 (hexDecodeLoop (s.data.drop 16)) = hexValD (s.data.drop 16) :=
      hexDecodeLoop_allHex_foldl _ hallB (by rw [hlenB]) 0
    rw [hHigh, hLow]
  · intro h
    simp only [HexTraceid2ID128, hexDecodeString]
    rw [if_neg]
    have := hexDecodeLoop_length_le s.data
    omega
  · intro h
    simp only [HexTraceid2ID128, hexDecodeString]
    rw [if_neg]
    intro hlen
    have := hexDecodeLoop_take_allHex s.data
    rw [hlen] at this
    rw [show 2 * 16 = 32 from rfl] at this
    rw [this] at h
    exact Bool.true_eq_false.mp h

/-- C3 (witness): the amended short-string clause at a concrete two-char
input. -/
theorem c3_hex_parse_behavior_witness :
    ("ab".data.length < 32) ∧ HexTraceid2ID128 "ab" = { High := 0, Low := 0 } :=
  ⟨by decide, (c3_hex_parse_behavior "ab").2.1 (by decide)⟩

theorem goParseUint64_ne_nil (cs : List Char) (h : cs ≠ []) :
    goParseUint64 cs = parseUintLoop cs 0 := by
  cases cs with
  | nil => exact absurd rfl h
  | cons c rest => rfl

theorem goParseInt64Val_dash (rest : List Char) (v : Nat)
    (hv : decValueLoop rest 0 = some v) (hne : rest ≠ []) :
    goParseInt64Val ('-' :: rest) =
      if 2 ^ 63 ≤ v then -(2 ^ 63) else -(v : Int) := by
  simp only [goParseInt64Val]
  rw [goParseUint64_ne_nil _ hne]
  rw [parseUintLoop_of_decValueLoop _ 0 v (by omega) hv]
  by_cases hbig : v ≤ 18446744073709551615
  · rw [if_pos hbig]
    simp only [not_true, false_and, if_false, true_and]
    split_ifs <;> omega
  · rw [if_neg hbig]
    simp only [if_true]
    split_ifs <;> omega

theorem parseUintLoop_syn (pre : List Char) :
    ∀ acc P : Nat, decValueLoop pre acc = some P → P < 1844674407370955162 →
      ∀ (c : Char) (suf : List Char), decDigit c = none →
        parseUintLoop (pre ++ c :: suf) acc = .synE := by
  induction pre with
  | nil =>
    intro acc P hP hcut c suf hc
    simp only [decValueLoop] at hP
    simp [parseUintLoop, hc]
  | cons p rest ih =>
    intro acc P hP hcut c suf hc
    simp only [decValueLoop] at hP
    cases hd : decDigit p with
    | none => rw [hd] at hP; simp at hP
    | some d =>
      rw [hd] at hP
      have hlow := decValueLoop_lower rest (acc * 10 + d) P hP
      have hpow : 1 ≤ 10 ^ rest.length := Nat.one_le_pow _ _ (by omega)
      have hstep : acc * 10 + d ≤ P := by
        have := Nat.le_mul_of_pos_right (acc * 10 + d)
          (by omega : 0 < 10 ^ rest.length)
        omega
      simp only [List.cons_append, parseUintLoop, hd]
      rw [if_neg (by omega), if_neg (by omega)]
      exact ih (acc * 10 + d) P hP hcut c suf hc

/-- C4 (counterexample): out-of-range decimals do not yield 0: the value
2 to the 64 clamps to MaxUint64, and a negative value below MinInt64
clamps to the MinInt64 bit pattern, exactly as Go strconv clamps range
errors while the code discards the error. -/
theorem c4_counterexample :
    DecTraceOrSpanid2ID64 "18446744073709551616" = 18446744073709551615 ∧
    DecTraceOrSpanid2ID64 "18446744073709551616" ≠ 0 ∧
    DecTraceOrSpanid2ID64 "-9223372036854775809" = 9223372036854775808 ∧
    DecTraceOrSpanid2ID64 "-9223372036854775809" ≠ 0 := by
  decide

/-- C4 (amended): a leading dash with an all-digit remainder of value v
yields the two's-complement bit pattern of the signed parse, clamped to the
MinInt64 pattern for v at or above 2 to the 63; an all-digit unsigned input
yields its value clamped to MaxUint64; a non-digit character reached
while the accumulated digit prefix is still below the ParseUint cutoff is a
syntax error yielding 0, as is an empty digit string (the empty input and
the bare dash).  Only the yield-0-on-out-of-range part of the original
claim is dropped. -/
theorem c4_decimal_parse (s : String) :
    (∀ rest v, s.data = '-' :: rest → decValue rest = some v →
      DecTraceOrSpanid2ID64 s =
        if 2 ^ 63 ≤ v then 2 ^ 63 else (2 ^ 64 - v) % 2 ^ 64) ∧
    (∀ v, startsWithDash s.data = false → decValue s.data = some v →
      DecTraceOrSpanid2ID64 s = min v (2 ^ 64 - 1)) ∧
    (∀ pre c suf P, s.data = '-' :: (pre ++ c :: suf) →
      decValueLoop pre 0 = some P → P < 1844674407370955162 →
      decDigit c = none → DecTraceOrSpanid2ID64 s = 0) ∧
    (∀ pre c suf P, s.data = pre ++ c :: suf → startsWithDash s.data = false →
      decValueLoop pre 0 = some P → P < 1844674407370955162 →
      decDigit c = none → DecTraceOrSpanid2ID64 s = 0) ∧
    (s.data = [] → DecTraceOrSpanid2ID64 s = 0) ∧
    (s.data = ['-'] → DecTraceOrSpanid2ID64 s = 0) := by
  refine ⟨?_, ?_, ?_, ?_, ?_, ?_⟩
  · intro rest v hs hv
    cases rest with
    | nil => simp [decValue] at hv
    | cons r0 rtl =>
      have hv' : decValueLoop (r0 :: rtl) 0 = some v := hv
      unfold DecTraceOrSpanid2ID64
      rw [hs]
      rw [if_pos (by simp [startsWithDash])]
      rw [goParseInt64Val_dash _ v hv' (by simp)]
      split_ifs <;> omega
  · intro v hdash hv
    cases hsd : s.data with
    | nil => rw [hsd] at hv; simp [decValue] at hv
    | cons c0 cs0 =>
      rw [hsd] at hv hdash
      have hv' : decValueLoop (c0 :: cs0) 0 = some v := hv
      unfold DecTraceOrSpanid2ID64
      rw [hsd]
      rw [if_neg (by simp [hdash])]
      rw [goParseUint64_ne_nil _ (by simp)]
      rw [parseUintLoop_of_decValueLoop _ 0 v (by omega) hv']
      by_cases hbig : v ≤ 18446744073709551615
      · rw [if_pos hbig]
        simp only [puVal]
        omega
      · rw [if_neg hbig]
        simp only [puVal]
        omega
  · intro pre c suf P hs hP hcut hc
    unfold DecTraceOrSpanid2ID64
    rw [hs]
    rw [if_pos (by simp [startsWithDash])]
    simp only [goParseInt64Val]
    rw [goParseUint64_ne_nil _ (by cases pre <;> simp)]
    rw [parseUintLoop_syn pre 0 P hP hcut c suf hc]
    decide
  · intro pre c suf P hs hdash hP hcut hc
    rw [hs] at hdash
    unfold DecTraceOrSpanid2ID64
    rw [hs]
    rw [if_neg (by simp [hdash])]
    rw [goParseUint64_ne_nil _ (by cases pre <;> simp)]
    rw [parseUintLoop_syn pre 0 P hP hcut c suf hc]
    rfl
  · intro hs
    unfold DecTraceOrSpanid2ID64
    rw [hs]
    rfl
  · intro hs
    unfold DecTraceOrSpanid2ID64
    rw [hs]
    decide

/-- C4 (witness): the amended signed clause at the S2 scenario input, the
string minus-one, whose bit pattern is MaxUint64. -/
theorem c4_decimal_parse_witness :
    DecTraceOrSpanid2ID64 "-1" = 18446744073709551615 := by
  have h := (c4_decimal_parse "-1").1 ['1'] 1 (by decide) (by decide)
  rw [h]
  decide

/-- C7: for every 64-bit value, the hex encoding produced by FormatSpanID
decodes back through HexSpanid2ID64, and the decimal encoding decodes back
through DecTraceOrSpanid2ID64. -/
theorem c7_codec_roundtrip (x : Nat) (h : x < 2 ^ 64) :
    HexSpanid2ID64 (FormatSpanID x true) = x ∧
    DecTraceOrSpanid2ID64 (FormatSpanID x false) = x := by
  constructor
  · have hbytes : ∀ b ∈ u64BEBytes x, b < 256 := by
      intro b hb
      simp only [u64BEBytes, List.mem_cons, List.not_mem_nil, or_false] at hb
      rcases hb with h' | h' | h' | h' | h' | h' | h' | h' <;> subst h' <;> omega
    show HexSpanid2ID64 ⟨(u64BEBytes x).flatMap hexEncodeByte⟩ = x
    simp only [HexSpanid2ID64, hexDecodeString]
    rw [hexDecodeLoop_encode _ hbytes]
    rw [if_pos (by simp [u64BEBytes])]
    exact beUint64_u64BEBytes h
  · obtain ⟨d, t, hd, ht⟩ := decDigitsOf_head x
    show DecTraceOrSpanid2ID64 ⟨decDigitsOf x⟩ = x
    simp only [DecTraceOrSpanid2ID64]
    have hdash : startsWithDash (decDigitsOf x) = false := by
      rw [ht]
      simp only [startsWithDash]
      exact beq_eq_false_iff_ne.mpr (digitChar_ne_dash hd)
    rw [if_neg (by simp [hdash])]
    have hvl : decValueLoop (decDigitsOf x) 0 = some x := by
      have := decDigitsOf_value x 0
      simpa using this
    rw [goParseUint64_ne_nil _ (by rw [ht]; simp)]
    rw [parseUintLoop_of_decValueLoop _ 0 x (by omega) hvl]
    rw [if_pos (by omega)]
    rfl

/-- C7 (witness): both round trips at the concrete value 3. -/
theorem c7_codec_roundtrip_witness :
    (3 < 2 ^ 64) ∧
    (HexSpanid2ID64 (FormatSpanID 3 true) = 3 ∧
     DecTraceOrSpanid2ID64 (FormatSpanID 3 false) = 3) :=
  ⟨by decide, c7_codec_roundtrip 3 (by decide)⟩
